import Mathlib

/-!
Verification of the TPD (Karamel) language core against its source.

The development shallowly embeds the Rust sources of the repository:
  * `src/src/compiler/dynamic_storage.rs`  (DynamicStorage)
  * `src/src/compiler/compiler.rs`         (InterpreterCompiler)
  * `src/src/syntax/control.rs`            (parse_control, ExpressionParser)
  * `src/karamellib/src/syntax/mod.rs`     (SyntaxParser::indentation_check)
  * `src/karamellib/src/syntax/function_defination.rs`
  * `src/karamellib/src/types.rs`          (NaN-boxing constants)
  * `src/karamellib/src/compiler/context.rs` (KaramelCompilerContext::get_function)

Machine integers are modelled as `Nat`/`Int`; `f64` literal payloads are
modelled as `Int` where no claim depends on float semantics, and as raw
64-bit `Nat` patterns where the NaN-boxed encoding is concerned.
Rust panics (out-of-bounds indexing, `unwrap` on `None`) are modelled as
dedicated result constructors.
-/

/-- Primitive values (`BramaPrimative` in `compiler/value.rs`, whose file is
not part of the source slice; the variant list follows the data model of the spec
section and the variants used by the sources at hand).  `Number(f64)` payloads
are modelled as `Int`: no claim about the storage or the compiler depends on
float-specific equality. -/
inductive BPrim where
  | empty
  | boolean (b : Bool)
  | number (n : Int)
  | text (s : String)
  | funcNativeCall (id : Nat)
deriving DecidableEq, Repr

/-- Rust `BramaOperatorType` from `karamellib/src/types.rs` (same list in both
crates). -/
inductive KOperator where
  | none
  | addition
  | subtraction
  | multiplication
  | division
  | modulo
  | increment
  | deccrement
  | assign
  | assignAddition
  | assignSubtraction
  | assignMultiplication
  | assignDivision
  | equal
  | notEqual
  | not
  | and
  | or
  | greaterThan
  | lessThan
  | greaterEqualThan
  | lessEqualThan
  | questionMark
  | colonMark
  | leftParentheses
  | rightParentheses
  | squareBracketStart
  | squareBracketEnd
  | comma
  | semicolon
  | dot
  | commentLine
  | commentMultilineStart
  | commentMultilineEnd
  | curveBracketStart
  | curveBracketEnd
deriving DecidableEq, Repr

/-- Rust `BramaKeywordType` from `karamellib/src/types.rs`. -/
inductive KKeyword where
  | none
  | true_
  | false_
  | use_
  | until_
  | loop_
  | if_
  | else_
  | and_
  | or_
  | empty_
  | modulo_
  | not_
  | greaterThan
  | lessThan
  | greaterEqualThan
  | lessEqualThan
  | equal
  | notEqual
  | fn_
  | return_
  | endless
  | break_
  | continue_
  | whileStartPart
  | whileEndPart
deriving DecidableEq, Repr

/-- Rust `BramaTokenType` from `karamellib/src/types.rs`.  The `Double(f64)`
payload is modelled as its raw 64-bit pattern (a `Nat`); no claim inspects
double tokens. -/
inductive BramaTokenType where
  | integer (v : Int)
  | double (bits : Nat)
  | symbol (s : String)
  | operator (op : KOperator)
  | text (s : String)
  | keyword (kw : KKeyword)
  | whiteSpace (size : Nat)
  | newLine (size : Nat)
deriving DecidableEq, Repr

/-- Rust `Token` from `karamellib/src/types.rs` (`start`/`end` columns renamed to
`startCol`/`endCol`). -/
structure Token where
  line : Nat
  startCol : Nat
  endCol : Nat
  token_type : BramaTokenType
deriving DecidableEq, Repr

/-- Rust `BramaError` from `karamellib/src/types.rs` (codes 100..130 in source
order). -/
inductive BramaError where
  | SyntaxError
  | InvalidExpression
  | MoreThan1ArgumentPassed
  | RightParanthesesMissing
  | AssertFailed
  | NumberNotParsed
  | MissingStringDeliminator
  | CharNotValid
  | RightSideOfExpressionNotFound
  | ReturnMustBeUsedInFunction
  | FunctionCallSyntaxNotValid
  | FunctionNameNotDefined
  | ArgumentMustBeText
  | IfConditionBodyNotFound
  | ParenthesesNotClosed
  | InvalidUnaryOperation
  | UnaryWorksWithNumber
  | ArgumentNotFound
  | MultipleElseUsageNotValid
  | BreakAndContinueBelongToLoops
  | FunctionConditionBodyNotFound
  | ColonMarkMissing
  | ElseIsUsed
  | IndentationIssue
  | DictNotClosed
  | ArrayNotClosed
  | InvalidListItem
  | DictionaryKeyNotValid
  | DictionaryValueNotValid
  | CommentNotFinished
  | WhileStatementNotValid
deriving DecidableEq, Repr

/-! ## DynamicStorage (`src/src/compiler/dynamic_storage.rs`)

`memory` holds `VmObject`s obtained with `VmObject::convert` and compared
after `deref`; since convert/deref round-trip, memory cells are modelled
directly as primitives.  The `HashMap<String, u8>` of variables_ is modelled
as an association list (only membership and lookup are used). -/

structure DynamicStorage where
  constants : List BPrim
  constant_size : Nat
  temp_size : Nat
  temp_counter : Nat
  variables_ : List (String × Nat)
  memory : List BPrim
  total_const_variables : Nat
  builded : Bool
deriving DecidableEq, Repr

/-- Rust `Storage::new()` for `DynamicStorage`. -/
def DynamicStorage.new : DynamicStorage :=
  { constants := [], constant_size := 0, temp_size := 0, temp_counter := 0,
    variables_ := [], memory := [], total_const_variables := 0, builded := false }

/-- Rust `HashMap::contains_key` on the association-list model. -/
def DynamicStorage.containsKey (vs : List (String × Nat)) (name : String) : Bool :=
  vs.any (fun p => p.1 == name)

/-- Rust `HashMap::get` on the association-list model. -/
def DynamicStorage.lookupKey (vs : List (String × Nat)) (name : String) : Option Nat :=
  (vs.find? (fun p => p.1 == name)).map (fun p => p.2)

/-- Rust `DynamicStorage::get_variable_location` (dynamic_storage.rs:91-96). -/
def DynamicStorage.get_variable_location (s : DynamicStorage) (name : String) : Option Nat :=
  DynamicStorage.lookupKey s.variables_ name

/-- Rust `DynamicStorage::add_constant` (dynamic_storage.rs:63-71): membership is
tested against `self.constants`, and on a miss the value is pushed onto
`self.memory`. -/
def DynamicStorage.add_constant (s : DynamicStorage) (value : BPrim) : DynamicStorage :=
  let found := s.constants.any (fun x => x == value)
  if found then s else { s with memory := s.memory ++ [value] }

/-- Rust `DynamicStorage::add_variable` (dynamic_storage.rs:73-80): on a fresh
name it pushes `Empty` onto `memory` and inserts the name with location `0`;
it then returns `get_variable_location(name).unwrap()`.  The `unwrap` is
modelled by the `Option` in the result (`none` would be the panic). -/
def DynamicStorage.add_variable (s : DynamicStorage) (name : String) :
    DynamicStorage × Option Nat :=
  let s' :=
    if DynamicStorage.containsKey s.variables_ name then s
    else { s with memory := s.memory ++ [BPrim.empty],
                  variables_ := s.variables_ ++ [(name, 0)] }
  (s', s'.get_variable_location name)

/-- Rust `DynamicStorage::get_constant_location` (dynamic_storage.rs:105-110):
position of the first equal value in `memory`. -/
def DynamicStorage.get_constant_location (s : DynamicStorage) (value : BPrim) : Option Nat :=
  s.memory.findIdx? (fun x => x == value)

/-- Rust `Storage::build` for `DynamicStorage` (dynamic_storage.rs:35-45).
`self.constants.len() as u8` is the `% 256` truncation. -/
def DynamicStorage.build (s : DynamicStorage) : DynamicStorage :=
  let s := { s with constant_size := s.constants.length % 256 }
  let new_memory_size := s.constant_size + (s.variables_.length % 256) + s.temp_size
  let current_memory_size := s.memory.length
  { s with memory := s.memory ++ List.replicate (new_memory_size - current_memory_size) BPrim.empty }

/-- C1.  The dedup check in `add_constant` consults `self.constants`, which
no code path ever appends to, while the value itself is pushed onto
`self.memory`.  Adding the same primitive literal twice therefore allocates
two memory slots, and the `constants` list stays empty: equal literals do not
share a slot and `|storage.constants|` is `0`, not the number of distinct
literals. -/
theorem addConstant_duplicate_slots :
    ((DynamicStorage.new.add_constant (BPrim.number 5)).add_constant
        (BPrim.number 5)).memory = [BPrim.number 5, BPrim.number 5] ∧
    ((DynamicStorage.new.add_constant (BPrim.number 5)).add_constant
        (BPrim.number 5)).constants = [] := by
  constructor <;> rfl

/-- C5.  `add_variable` inserts every fresh name with slot index `0` (it
pushes a memory cell but records the literal location `0`), so two distinct
variable names are both mapped to slot 0 instead of distinct slots placed
after the constants. -/
theorem add_variable_slots_collide :
    (DynamicStorage.new.add_variable "a").2 = some 0 ∧
    (((DynamicStorage.new.add_variable "a").1.add_variable "b").2 = some 0) ∧
    ((DynamicStorage.new.add_variable "a").1.add_variable "b").1.memory.length = 2 := by
  refine ⟨rfl, rfl, rfl⟩

/-! ## Compiler (`src/src/compiler/compiler.rs`) -/

/-- The `VmOpCode` discriminants used by `compiler.rs` (the opcode enum file
is not in the source slice; opcodes are modelled symbolically, which is all
the emitted-sequence claims need). -/
inductive VmOpCode where
  | none
  | load
  | store
  | assignAddition
  | assignSubtraction
  | assignMultiplication
  | assignDivision
  | addition
  | subraction
  | multiply
  | division
  | equal
  | notEqual
  | greaterThan
  | lessThan
  | greaterEqualThan
  | lessEqualThan
  | and
  | or
  | not
  | increment
  | decrement
  | nativeCall
deriving DecidableEq, Repr

/-- One entry of the emitted byte stream: either an opcode byte
(`VmOpCode as u8`) or an operand byte. -/
inductive OpByte where
  | code (op : VmOpCode)
  | operand (v : Nat)
deriving DecidableEq, Repr

/-- Rust `BramaAstType` as matched by `compiler.rs` (its `ast.rs` is not in the
source slice; constructors and payloads follow the patterns in
`generate_opcode`, e.g. `Assignment { variable: Rc<String>, .. }` and
`FuncCall { names, arguments }`). -/
inductive TAst where
  | none
  | symbol (s : String)
  | primative (p : BPrim)
  | binary (left : TAst) (op : KOperator) (right : TAst)
  | control (left : TAst) (op : KOperator) (right : TAst)
  | assignment (variable_ : String) (op : KOperator) (expression : TAst)
  | funcCall (names : List String) (arguments : List TAst)
  | prefixUnary (op : KOperator) (expression : TAst)
  | suffixUnary (op : KOperator) (expression : TAst)
  | block (asts : List TAst)

/-- Rust `BramaCompilerOption` (compiler.rs:13-19): the opcode vector and the
storages (instantiated with `DynamicStorage`); the module collection is a
separate `findMethod` parameter below. -/
structure CompilerOptions where
  opcodes : List OpByte
  storages : List DynamicStorage
deriving DecidableEq, Repr

/-- Result of `generate_opcode`: `CompilerResult` (`Result<u8, &str>`), with
Rust panics (out-of-bounds indexing / `unwrap`) as a third constructor. -/
inductive GenResult where
  | ok (slot : Nat) (options : CompilerOptions)
  | err (msg : String)
  | panic
deriving DecidableEq, Repr

/-- Operator table of `generate_control` (compiler.rs:128-138). -/
def controlOpcode : KOperator → VmOpCode
  | KOperator.or => VmOpCode.or
  | KOperator.and => VmOpCode.and
  | KOperator.equal => VmOpCode.equal
  | KOperator.notEqual => VmOpCode.notEqual
  | KOperator.greaterThan => VmOpCode.greaterThan
  | KOperator.lessThan => VmOpCode.lessThan
  | KOperator.greaterEqualThan => VmOpCode.greaterEqualThan
  | KOperator.lessEqualThan => VmOpCode.lessEqualThan
  | _ => VmOpCode.none

/-- Operator table of `generate_assignment` (compiler.rs:147-154). -/
def assignmentOpcode : KOperator → VmOpCode
  | KOperator.assign => VmOpCode.store
  | KOperator.assignAddition => VmOpCode.assignAddition
  | KOperator.assignDivision => VmOpCode.assignDivision
  | KOperator.assignMultiplication => VmOpCode.assignMultiplication
  | KOperator.assignSubtraction => VmOpCode.assignSubtraction
  | _ => VmOpCode.none

/-- Operator table of `generate_binary` (compiler.rs:162-168). -/
def binaryOpcode : KOperator → VmOpCode
  | KOperator.addition => VmOpCode.addition
  | KOperator.subtraction => VmOpCode.subraction
  | KOperator.multiplication => VmOpCode.multiply
  | KOperator.division => VmOpCode.division
  | _ => VmOpCode.none

mutual

/-- Rust `InterpreterCompiler::generate_opcode` (compiler.rs:59-205), specialised
to `DynamicStorage` and state-passing style.  `findMethod` stands for
`options.modules.find_method` and returns the id of a native function.
The `Assignment` arm is `generate_assignment` (compiler.rs:144-158): it
registers the variable, then pushes the single assignment opcode — the
expression is never compiled and no slot operand is pushed. -/
def generateOpcode (findMethod : List String → Option Nat) (ast upper_ast : TAst)
    (options : CompilerOptions) (storage_index : Nat) : GenResult :=
  match ast with
  | TAst.assignment variable_ operator _expression =>
    match options.storages[storage_index]? with
    | Option.none => GenResult.panic
    | Option.some storage =>
      let (storage', loc) := storage.add_variable variable_
      match loc with
      | Option.none => GenResult.panic
      | Option.some _ =>
        let options := { options with storages := options.storages.set storage_index storage' }
        GenResult.ok 0 { options with opcodes := options.opcodes ++ [OpByte.code (assignmentOpcode operator)] }
  | TAst.symbol variable_ =>
    match options.storages[storage_index]? with
    | Option.none => GenResult.panic
    | Option.some storage =>
      match storage.get_variable_location variable_ with
      | Option.some location =>
        GenResult.ok location { options with opcodes := options.opcodes ++ [OpByte.code VmOpCode.load, OpByte.operand location] }
      | Option.none => GenResult.err "Variable not found in storage"
  | TAst.control left operator right =>
    match generateOpcode findMethod left TAst.none options storage_index with
    | GenResult.ok _ options =>
      match generateOpcode findMethod right TAst.none options storage_index with
      | GenResult.ok _ options =>
        GenResult.ok 0 { options with opcodes := options.opcodes ++ [OpByte.code (controlOpcode operator)] }
      | r => r
    | r => r
  | TAst.binary left operator right =>
    match generateOpcode findMethod left TAst.none options storage_index with
    | GenResult.ok _ options =>
      match generateOpcode findMethod right TAst.none options storage_index with
      | GenResult.ok _ options =>
        GenResult.ok 0 { options with opcodes := options.opcodes ++ [OpByte.code (binaryOpcode operator)] }
      | r => r
    | r => r
  | TAst.block asts =>
    match generateList findMethod asts upper_ast options storage_index with
    | GenResult.ok _ options => GenResult.ok 0 options
    | r => r
  | TAst.primative primative =>
    match options.storages[storage_index]? with
    | Option.none => GenResult.panic
    | Option.some storage =>
      match storage.get_constant_location primative with
      | Option.some index =>
        GenResult.ok index { options with opcodes := options.opcodes ++ [OpByte.code VmOpCode.load, OpByte.operand index] }
      | Option.none => GenResult.err "Value not found in storage"
  | TAst.funcCall names arguments =>
    match generateList findMethod arguments upper_ast options storage_index with
    | GenResult.ok _ options =>
      match findMethod names with
      | Option.some function =>
        match options.storages[storage_index]? with
        | Option.none => GenResult.panic
        | Option.some storage =>
          match storage.get_constant_location (BPrim.funcNativeCall function) with
          | Option.some location =>
            GenResult.ok 0 { options with opcodes := options.opcodes ++
              [OpByte.code VmOpCode.nativeCall, OpByte.operand location, OpByte.operand arguments.length] }
          | Option.none => GenResult.err "Function not found"
      | Option.none => GenResult.err "Function not found"
    | r => r
  | TAst.prefixUnary operator expression =>
    match generateOpcode findMethod expression TAst.none options storage_index with
    | GenResult.ok _ options =>
      match operator with
      | KOperator.increment => GenResult.ok 0 { options with opcodes := options.opcodes ++ [OpByte.code VmOpCode.increment] }
      | KOperator.deccrement => GenResult.ok 0 { options with opcodes := options.opcodes ++ [OpByte.code VmOpCode.decrement] }
      | KOperator.not => GenResult.ok 0 { options with opcodes := options.opcodes ++ [OpByte.code VmOpCode.not] }
      | _ => GenResult.err "Unary operator not found"
    | r => r
  | TAst.suffixUnary operator expression =>
    match generateOpcode findMethod expression TAst.none options storage_index with
    | GenResult.ok _ options =>
      match operator with
      | KOperator.increment => GenResult.ok 0 { options with opcodes := options.opcodes ++ [OpByte.code VmOpCode.increment] }
      | KOperator.deccrement => GenResult.ok 0 { options with opcodes := options.opcodes ++ [OpByte.code VmOpCode.decrement] }
      | _ => GenResult.err "Unary operator not found"
    | r => r
  | TAst.none => GenResult.err "Not implemented"

/-- The `for … { self.generate_opcode(…)?; }` loops of `generate_block` and
`generate_func_call`. -/
def generateList (findMethod : List String → Option Nat) (asts : List TAst) (upper_ast : TAst)
    (options : CompilerOptions) (storage_index : Nat) : GenResult :=
  match asts with
  | [] => GenResult.ok 0 options
  | ast :: rest =>
    match generateOpcode findMethod ast upper_ast options storage_index with
    | GenResult.ok _ options => generateList findMethod rest upper_ast options storage_index
    | r => r

end

/-- C2.  `generate_assignment` never compiles the right-hand expression and
pushes no slot operand: compiling `erhan = 2020` emits the single byte
`Store`, not `RHS opcodes; Store slot`, and compiling `erhan += 1` emits the
single byte `AssignAddition` (no LHS load, no arithmetic opcode, no slot). -/
theorem generate_assignment_omits_rhs_and_slot :
    generateOpcode (fun _ => Option.none)
        (TAst.assignment "erhan" KOperator.assign (TAst.primative (BPrim.number 2020)))
        TAst.none { opcodes := [], storages := [DynamicStorage.new] } 0 =
      GenResult.ok 0
        { opcodes := [OpByte.code VmOpCode.store],
          storages := [{ DynamicStorage.new with
                          memory := [BPrim.empty], variables_ := [("erhan", 0)] }] } ∧
    generateOpcode (fun _ => Option.none)
        (TAst.assignment "erhan" KOperator.assignAddition (TAst.primative (BPrim.number 1)))
        TAst.none { opcodes := [], storages := [DynamicStorage.new] } 0 =
      GenResult.ok 0
        { opcodes := [OpByte.code VmOpCode.assignAddition],
          storages := [{ DynamicStorage.new with
                          memory := [BPrim.empty], variables_ := [("erhan", 0)] }] } := by
  constructor <;> rfl

/-! ## Indentation checking (`src/karamellib/src/syntax/mod.rs:227-260`) -/

/-- Outcome of `indentation_check`: `Ok` leaves the cursor at the given
index, `Err` carries the error, and `panic` models the
`next_token().unwrap()` on a trailing `NewLine` token. -/
inductive ICResult where
  | ok (index : Nat)
  | err (e : BramaError)
  | panic
deriving DecidableEq, Repr

/-- What the body of the `indentation_check` loop does with the current
token (the nested match of mod.rs:233-250, factored out): a newline followed
by another newline is skipped without a width check; a whitespace token, or
a newline followed by a non-newline, has its width checked; any other token
stops the loop; a newline with no following token hits
`next_token().unwrap()` and panics. -/
inductive ICStep where
  | skip
  | checkW (size : Nat)
  | stop
  | panicStep
deriving DecidableEq, Repr

/-- Classification of the current token for one loop step (mod.rs:233-250).
`next` is `next_token()`. -/
def icClassify (tt : BramaTokenType) (next : Option Token) : ICStep :=
  match tt with
  | BramaTokenType.newLine size =>
    match next with
    | Option.none => ICStep.panicStep
    | Option.some t2 =>
      match t2.token_type with
      | BramaTokenType.newLine _ => ICStep.skip
      | _ => ICStep.checkW size
  | BramaTokenType.whiteSpace size => ICStep.checkW size
  | _ => ICStep.stop

/-- The `while let Ok(current_token) = self.peek_token()` loop of
`indentation_check` (mod.rs:232-257).  `peek_token` succeeding is the bound
check on the index; `size == self.indentation.get() as u8` is the `% 256`
truncation of the expected indentation. -/
def icLoop (tokens : List Token) (ind : Nat) (i : Nat) : ICResult :=
  if hlt : i < tokens.length then
    match icClassify (tokens[i]).token_type tokens[i+1]? with
    | ICStep.skip => icLoop tokens ind (i+1)
    | ICStep.checkW size =>
      if size = ind % 256 then icLoop tokens ind (i+1)
      else ICResult.err BramaError.IndentationIssue
    | ICStep.stop => ICResult.ok i
    | ICStep.panicStep => ICResult.panic
  else ICResult.ok i
termination_by tokens.length - i

/-- Rust `SyntaxParser::indentation_check` (mod.rs:227-260): an early `Ok` when
`next_token()` (index + 1) is out of range, otherwise the scanning loop. -/
def indentation_check (tokens : List Token) (ind : Nat) (i : Nat) : ICResult :=
  if i + 1 < tokens.length then icLoop tokens ind i else ICResult.ok i

/-- Declarative reading of one accepted scan step: the token at `k` is a
newline followed by another newline (skipped without width check), or a
width-checked whitespace/newline token whose width equals the expected
indentation. -/
def icPass (tokens : List Token) (ind : Nat) (k : Nat) : Bool :=
  if hlt : k < tokens.length then
    match icClassify (tokens[k]).token_type tokens[k+1]? with
    | ICStep.skip => true
    | ICStep.checkW size => size == ind
    | _ => false
  else false

/-- Declarative reading of a misaligned token: a width-checked
whitespace/newline token at `j` whose width differs from the expected
indentation. -/
def icFail (tokens : List Token) (ind : Nat) (j : Nat) : Bool :=
  if hlt : j < tokens.length then
    match icClassify (tokens[j]).token_type tokens[j+1]? with
    | ICStep.checkW size => size != ind
    | _ => false
  else false

theorem icFail_lt_length {tokens : List Token} {ind j : Nat}
    (h : icFail tokens ind j = true) : j < tokens.length := by
  by_contra hge
  rw [icFail, dif_neg hge] at h
  exact Bool.noConfusion h

theorem icPass_lt_length {tokens : List Token} {ind k : Nat}
    (h : icPass tokens ind k = true) : k < tokens.length := by
  by_contra hge
  rw [icPass, dif_neg hge] at h
  exact Bool.noConfusion h

theorem icShift {tokens : List Token} {ind i : Nat}
    (hpass : icPass tokens ind i = true) (hfail : icFail tokens ind i = false) :
    (∃ j, i ≤ j ∧ j < tokens.length ∧
        (∀ k, i ≤ k → k < j → icPass tokens ind k = true) ∧ icFail tokens ind j = true) ↔
    (∃ j, i + 1 ≤ j ∧ j < tokens.length ∧
        (∀ k, i + 1 ≤ k → k < j → icPass tokens ind k = true) ∧ icFail tokens ind j = true) := by
  constructor
  · rintro ⟨j, hij, hjl, hall, hfj⟩
    rcases Nat.eq_or_lt_of_le hij with rfl | hlt
    · rw [hfail] at hfj; exact Bool.noConfusion hfj
    · exact ⟨j, hlt, hjl, fun k hk1 hk2 => hall k (by omega) hk2, hfj⟩
  · rintro ⟨j, hij, hjl, hall, hfj⟩
    refine ⟨j, by omega, hjl, ?_, hfj⟩
    intro k hk1 hk2
    rcases Nat.eq_or_lt_of_le hk1 with rfl | hlt
    · exact hpass
    · exact hall k (by omega) hk2

theorem icNoWitness {tokens : List Token} {ind i : Nat}
    (hpass : icPass tokens ind i = false) (hfail : icFail tokens ind i = false) :
    ¬ (∃ j, i ≤ j ∧ j < tokens.length ∧
        (∀ k, i ≤ k → k < j → icPass tokens ind k = true) ∧ icFail tokens ind j = true) := by
  rintro ⟨j, hij, hjl, hall, hfj⟩
  rcases Nat.eq_or_lt_of_le hij with rfl | hlt
  · rw [hfail] at hfj; exact Bool.noConfusion hfj
  · have := hall i (Nat.le_refl i) hlt
    rw [hpass] at this; exact Bool.noConfusion this

theorem icLoop_fail {tokens : List Token} {ind : Nat} (hind : ind < 256) {i : Nat}
    (h : icFail tokens ind i = true) :
    icLoop tokens ind i = ICResult.err BramaError.IndentationIssue := by
  have hlt : i < tokens.length := icFail_lt_length h
  rw [icFail, dif_pos hlt] at h
  rw [icLoop, dif_pos hlt, Nat.mod_eq_of_lt hind]
  cases hc : icClassify (tokens[i]).token_type tokens[i+1]? <;>
    simp only [hc] at h ⊢ <;> try exact Bool.noConfusion h
  · -- checkW
    simp only [bne_iff_ne, ne_eq, decide_eq_true_eq] at h
    rw [if_neg h]

theorem icLoop_pass {tokens : List Token} {ind : Nat} (hind : ind < 256) {i : Nat}
    (h : icPass tokens ind i = true) :
    icLoop tokens ind i = icLoop tokens ind (i + 1) := by
  have hlt : i < tokens.length := icPass_lt_length h
  rw [icPass, dif_pos hlt] at h
  rw [icLoop, dif_pos hlt, Nat.mod_eq_of_lt hind]
  cases hc : icClassify (tokens[i]).token_type tokens[i+1]? <;>
    simp only [hc] at h ⊢ <;> try exact Bool.noConfusion h
  · -- checkW
    simp only [beq_iff_eq] at h
    rw [if_pos h]

theorem icLoop_stuck {tokens : List Token} {ind : Nat} {i : Nat}
    (hpass : icPass tokens ind i = false) (hfail : icFail tokens ind i = false) :
    icLoop tokens ind i = ICResult.ok i ∨ icLoop tokens ind i = ICResult.panic := by
  by_cases hlt : i < tokens.length
  · rw [icPass, dif_pos hlt] at hpass
    rw [icFail, dif_pos hlt] at hfail
    rw [icLoop, dif_pos hlt]
    cases hc : icClassify (tokens[i]).token_type tokens[i+1]? <;>
      simp only [hc] at hpass hfail ⊢
    · exact Bool.noConfusion hpass
    · -- checkW: pass false gives size ≠ ind, fail false gives size = ind
      simp only [beq_eq_false_iff_ne, ne_eq] at hpass
      simp only [bne_eq_false_iff_eq] at hfail
      exact absurd hfail hpass
    · exact Or.inl trivial
    · exact Or.inr trivial
  · rw [icLoop, dif_neg hlt]
    exact Or.inl rfl

theorem icLoop_err_iff (tokens : List Token) (ind : Nat) (hind : ind < 256) (i : Nat) :
    icLoop tokens ind i = ICResult.err BramaError.IndentationIssue ↔
      ∃ j, i ≤ j ∧ j < tokens.length ∧
        (∀ k, i ≤ k → k < j → icPass tokens ind k = true) ∧ icFail tokens ind j = true := by
  suffices h : ∀ n i, tokens.length - i ≤ n →
      (icLoop tokens ind i = ICResult.err BramaError.IndentationIssue ↔
        ∃ j, i ≤ j ∧ j < tokens.length ∧
          (∀ k, i ≤ k → k < j → icPass tokens ind k = true) ∧ icFail tokens ind j = true) by
    exact h tokens.length i (by omega)
  intro n
  induction n with
  | zero =>
    intro i hle
    have hge : ¬ i < tokens.length := by omega
    rw [icLoop, dif_neg hge]
    constructor
    · intro h; exact ICResult.noConfusion h
    · rintro ⟨j, hij, hjl, -, -⟩; omega
  | succ n ih =>
    intro i hle
    by_cases hf : icFail tokens ind i = true
    · rw [icLoop_fail hind hf]
      exact iff_of_true rfl
        ⟨i, Nat.le_refl i, icFail_lt_length hf, fun k hk1 hk2 => by omega, hf⟩
    · have hf' : icFail tokens ind i = false := by
        cases h : icFail tokens ind i
        · rfl
        · exact absurd h hf
      by_cases hp : icPass tokens ind i = true
      · rw [icLoop_pass hind hp]
        have hlen : i < tokens.length := icPass_lt_length hp
        exact (ih (i + 1) (by omega)).trans (icShift hp hf').symm
      · have hp' : icPass tokens ind i = false := by
          cases h : icPass tokens ind i
          · rfl
          · exact absurd h hp
        rcases icLoop_stuck hp' hf' with h | h <;> rw [h] <;>
          exact iff_of_false (fun hh => ICResult.noConfusion hh) (icNoWitness hp' hf')

/-- C7.  `indentation_check` returns `IndentationIssue` exactly when the scan
from the current index, skipping newline-before-newline tokens and
width-matching whitespace/newline tokens, reaches a whitespace token — or a
newline token whose successor is not another newline — whose width differs
from the expected indentation (provided the entry guard `next_token` is in
range; with at most one token left the check returns `Ok` unconditionally). -/
theorem indentation_check_issue_iff (tokens : List Token) (ind i : Nat)
    (hind : ind < 256) (hnext : i + 1 < tokens.length) :
    indentation_check tokens ind i = ICResult.err BramaError.IndentationIssue ↔
      ∃ j, i ≤ j ∧ j < tokens.length ∧
        (∀ k, i ≤ k → k < j → icPass tokens ind k = true) ∧ icFail tokens ind j = true := by
  rw [indentation_check, if_pos hnext]
  exact icLoop_err_iff tokens ind hind i

/-- Concrete instance for C7: a whitespace of width 5 before a symbol while
the expected indentation is 0 raises `IndentationIssue`. -/
theorem indentation_check_issue_witness :
    indentation_check
        [⟨0, 0, 0, BramaTokenType.whiteSpace 5⟩, ⟨0, 5, 6, BramaTokenType.symbol "x"⟩]
        0 0 = ICResult.err BramaError.IndentationIssue :=
  (indentation_check_issue_iff
      [⟨0, 0, 0, BramaTokenType.whiteSpace 5⟩, ⟨0, 5, 6, BramaTokenType.symbol "x"⟩]
      0 0 (by decide) (by decide)).mpr
    ⟨0, Nat.le_refl 0, by decide, fun k _ hk => absurd hk (Nat.not_lt_zero k), by decide⟩

/-! ## Syntax AST and function definitions
(`src/src/syntax/control.rs`, `src/karamellib/src/syntax/function_defination.rs`)

`BramaAstType` as used by the syntax-side sources (its `ast.rs` is not in
the source slice; constructors and payloads follow the patterns matched in
`control.rs` and `function_defination.rs`, and the spec's AST table). -/
inductive SAst where
  | none
  | symbol (s : String)
  | primative (p : BPrim)
  | control (left : SAst) (op : KOperator) (right : SAst)
  | funcCall (func_name_expression : SAst) (arguments : List SAst) (assign_to_temp : Bool)
  | indexer (body : SAst) (indexer : SAst)
  | accessorFuncCall (source : SAst) (indexer : SAst) (assign_to_temp : Bool)
  | ret (expression : SAst)
  | block (asts : List SAst)
  | funcDef (name : String) (arguments : List String) (body : SAst)

/-- Is this node a `Return`?  (`if let BramaAstType::Return(_) = …`). -/
def SAst.isReturn : SAst → Bool
  | SAst.ret _ => true
  | _ => false

/-- Is this node a `Block` whose last element is a `Return`?  (the shape the
C4 claim asserts for every parsed function body). -/
def SAst.isBlockEndingInReturn : SAst → Bool
  | SAst.block bs =>
    match bs.getLast? with
    | Option.some last => last.isReturn
    | Option.none => false
  | _ => false

/-- Outcome of the body-fixing step of `FunctionDefinationParser::parse`:
`panic` models the out-of-bounds `blocks[blocks.len() - 1]` on an empty
block. -/
inductive FDResult where
  | ok (body : SAst)
  | err (e : BramaError)
  | panic

/-- The body post-processing of `FunctionDefinationParser::parse`
(function_defination.rs:84-110): compute `has_return` (a body that is itself
`Return` counts; a `Block` is inspected at `blocks[blocks.len() - 1]`, which
panics when the block is empty; `None` is rejected with
`FunctionConditionBodyNotFound`), then, when there is no trailing return,
push `Return(None)` onto a `Block` body or wrap any other body in a new
`Block` together with `Return(None)`. -/
def funcBodyFix : SAst → FDResult
  | SAst.ret e => FDResult.ok (SAst.ret e)
  | SAst.block bs =>
    match bs.getLast? with
    | Option.none => FDResult.panic
    | Option.some last =>
      if last.isReturn then FDResult.ok (SAst.block bs)
      else FDResult.ok (SAst.block (bs ++ [SAst.ret SAst.none]))
  | SAst.none => FDResult.err BramaError.FunctionConditionBodyNotFound
  | body => FDResult.ok (SAst.block [body, SAst.ret SAst.none])

/-- C4 counterexample.  A parsed body that is itself a `Return` node (the
single-line form `fn f(): döndür`) is kept as-is: `has_return` is true, so
no wrapping happens and the resulting `FunctionDefination.body` is a bare
`Return`, not a Block whose last element is a Return. -/
theorem function_body_return_kept_unwrapped :
    funcBodyFix (SAst.ret SAst.none) = FDResult.ok (SAst.ret SAst.none) ∧
    (SAst.ret SAst.none).isBlockEndingInReturn = false := by
  exact ⟨rfl, rfl⟩

/-- C4 as amended.  For every parsed body that is not `None`, not itself a
`Return`, and not an empty `Block`, the fixed body is a Block whose last
element is a Return: a Block already ending in Return is kept, a Block not
ending in Return gets `Return(None)` appended, and any other body is wrapped
into a Block together with `Return(None)`. -/
theorem function_body_fix_block_return (b : SAst)
    (hnone : b ≠ SAst.none) (hret : b.isReturn = false)
    (hblock : ∀ bs, b = SAst.block bs → bs ≠ []) :
    ∃ bs, funcBodyFix b = FDResult.ok (SAst.block bs) ∧
      (SAst.block bs).isBlockEndingInReturn = true := by
  cases b with
  | none => exact absurd rfl hnone
  | ret e => exact Bool.noConfusion hret
  | block bs =>
    have hbs : bs ≠ [] := hblock bs rfl
    rcases hlast : bs.getLast? with - | last
    · exact absurd (List.getLast?_eq_none_iff.mp hlast) hbs
    · by_cases hr : last.isReturn
      · refine ⟨bs, ?_, ?_⟩
        · rw [funcBodyFix]; rw [hlast]; simp only [hr, if_pos]
        · rw [SAst.isBlockEndingInReturn, hlast]; exact hr
      · have hr' : last.isReturn = false := by
          cases h : last.isReturn
          · rfl
          · exact absurd h hr
        refine ⟨bs ++ [SAst.ret SAst.none], ?_, ?_⟩
        · rw [funcBodyFix]; rw [hlast]; simp only [hr', if_neg, Bool.false_eq_true,
            not_false_eq_true]
        · rw [SAst.isBlockEndingInReturn]
          rw [List.getLast?_concat]
          rfl
  | symbol s => exact ⟨[SAst.symbol s, SAst.ret SAst.none], rfl, rfl⟩
  | primative p => exact ⟨[SAst.primative p, SAst.ret SAst.none], rfl, rfl⟩
  | control l op r =>
    exact ⟨[SAst.control l op r, SAst.ret SAst.none], rfl, rfl⟩
  | funcCall f a t =>
    exact ⟨[SAst.funcCall f a t, SAst.ret SAst.none], rfl, rfl⟩
  | indexer body ix =>
    exact ⟨[SAst.indexer body ix, SAst.ret SAst.none], rfl, rfl⟩
  | accessorFuncCall s ix t =>
    exact ⟨[SAst.accessorFuncCall s ix t, SAst.ret SAst.none], rfl, rfl⟩
  | funcDef n args body =>
    exact ⟨[SAst.funcDef n args body, SAst.ret SAst.none], rfl, rfl⟩

/-- Concrete instance for the amended C4: a one-statement block body gets
`Return(None)` appended. -/
theorem function_body_fix_block_return_witness :
    ∃ bs, funcBodyFix (SAst.block [SAst.symbol "x"]) = FDResult.ok (SAst.block bs) ∧
      (SAst.block bs).isBlockEndingInReturn = true :=
  function_body_fix_block_return (SAst.block [SAst.symbol "x"])
    (fun h => SAst.noConfusion h) rfl
    (fun bs h => by injection h with h1; rw [← h1]; exact fun hc => List.noConfusion hc)

/-- C10.  `FunctionDefinationParser::parse` probes `blocks[blocks.len() - 1]`
to decide whether the body already ends in `Return`; on an empty `Block`
body this index is out of bounds and the parser panics instead of returning
a structured error. -/
theorem function_body_empty_block_panics :
    funcBodyFix (SAst.block []) = FDResult.panic := rfl

/-! ## Expression suffix parsing (`src/src/syntax/control.rs`) -/

/-- Modelled from the spec: `update_functions_for_temp_return`
(`src/src/syntax/util.rs` is not in the source slice).  The spec: "the
already-built left-hand AST is walked and any `FuncCall`/`AccessorFuncCall`
inside it is marked `assign_to_temp = true`"; the walk descends through
indexers. -/
def update_functions_for_temp_return : SAst → SAst
  | SAst.funcCall f a _ => SAst.funcCall f a true
  | SAst.accessorFuncCall s i _ => SAst.accessorFuncCall s i true
  | SAst.indexer b i => SAst.indexer (update_functions_for_temp_return b) i
  | a => a

/-- The `'.'` suffix branch of `ExpressionParser::parse` (control.rs:31-60):
given the already-parsed left expression `ast` and the recursively parsed
right side `sub_ast`, a symbol right side yields an `Indexer` with the
symbol converted to text; a function call on a symbol yields an
`AccessorFuncCall` after `update_functions_for_temp_return(&mut ast)` is
applied to the LEFT side (the inner call is stored unchanged); anything else
is `FunctionCallSyntaxNotValid`.  Errors in the old crate are message
tuples; the message string is kept. -/
def dotSuffix (ast sub_ast : SAst) : Except String SAst :=
  match sub_ast with
  | SAst.symbol s =>
    Except.ok (SAst.indexer ast (SAst.primative (BPrim.text s)))
  | SAst.funcCall fne args att =>
    match fne with
    | SAst.symbol _ =>
      Except.ok (SAst.accessorFuncCall (update_functions_for_temp_return ast)
        (SAst.funcCall fne args att) false)
    | _ => Except.error "Function call syntax not valid"
  | _ => Except.error "Function call syntax not valid"

/-- Rust `assign_to_temp` of the call stored inside an `AccessorFuncCall`. -/
def innerCallMarked : SAst → Bool
  | SAst.accessorFuncCall _ (SAst.funcCall _ _ att) _ => att
  | _ => false

/-- The AST of a successful parse result (used to state counterexamples). -/
def dotResultAst : Except String SAst → SAst
  | Except.ok a => a
  | Except.error _ => SAst.none

/-- C6 counterexample.  Parsing the `'.'` suffix of
`object.method(1)` yields `AccessorFuncCall` whose inner `FuncCall` has
`assign_to_temp = false`: the marking pass runs on the left-hand source
(`Symbol("object")`, a no-op), not on the inner call as the claim states. -/
theorem dot_suffix_inner_call_unmarked :
    dotSuffix (SAst.symbol "object")
        (SAst.funcCall (SAst.symbol "method") [SAst.primative (BPrim.number 1)] false) =
      Except.ok (SAst.accessorFuncCall (SAst.symbol "object")
        (SAst.funcCall (SAst.symbol "method") [SAst.primative (BPrim.number 1)] false)
        false) ∧
    innerCallMarked (dotResultAst (dotSuffix (SAst.symbol "object")
        (SAst.funcCall (SAst.symbol "method") [SAst.primative (BPrim.number 1)] false))) =
      false := ⟨rfl, rfl⟩

/-- C6 as amended.  When the right side of a `'.'` suffix is a function call
on a symbol, the parser produces
`AccessorFuncCall { source, indexer, assign_to_temp = false }` where
`source` is the left expression with the temp-return marking applied to it
and `indexer` is the call kept unchanged (in particular the inner call's
`assign_to_temp` stays whatever it already was, not forced to `true`). -/
theorem dot_suffix_marks_source_not_call (left : SAst) (n : String)
    (args : List SAst) (att : Bool) :
    dotSuffix left (SAst.funcCall (SAst.symbol n) args att) =
      Except.ok (SAst.accessorFuncCall (update_functions_for_temp_return left)
        (SAst.funcCall (SAst.symbol n) args att) false) := rfl

/-! ## Precedence-climbing combinator (`src/src/syntax/control.rs:101-146`) -/

/-- Rust `SyntaxFlag::IN_EXPRESSION` (`0b00001000`). -/
def IN_EXPRESSION : Nat := 8

/-- The shared parser cursor (`index` and `flags` cells of `SyntaxParser`;
`indentation` is not touched by `parse_control`). -/
structure PState where
  index : Nat
  flags : Nat
deriving DecidableEq, Repr

/-- Is this node `BramaAstType::None`? -/
def SAst.isNone : SAst → Bool
  | SAst.none => true
  | _ => false

/-- Rust `SyntaxParser::check_operator` (mod.rs:166-173). -/
def checkOperator (tokens : List Token) (st : PState) (op : KOperator) : Bool :=
  match tokens[st.index]? with
  | Option.some t =>
    match t.token_type with
    | BramaTokenType.operator o => o == op
    | _ => false
  | Option.none => false

/-- Rust `SyntaxParser::match_operator` (mod.rs:175-184): first listed operator
that checks is consumed. -/
def matchOperator (tokens : List Token) : List KOperator → PState → Option KOperator × PState
  | [], st => (Option.none, st)
  | op :: rest, st =>
    if checkOperator tokens st op then (Option.some op, { st with index := st.index + 1 })
    else matchOperator tokens rest st

/-- Rust `SyntaxParser::cleanup_whitespaces` (mod.rs:186-204), with the loop
bounded by the number of remaining tokens (each iteration consumes one
token, and once the index is past the end `peek_token` fails, so the bound
never changes the result). -/
def cleanupWhitespacesFuel (tokens : List Token) : Nat → PState → PState
  | 0, st => st
  | fuel+1, st =>
    match tokens[st.index]? with
    | Option.some t =>
      match t.token_type with
      | BramaTokenType.whiteSpace _ =>
        cleanupWhitespacesFuel tokens fuel { st with index := st.index + 1 }
      | _ => st
    | Option.none => st

/-- Rust `SyntaxParser::cleanup_whitespaces` at its natural bound. -/
def cleanupWhitespaces (tokens : List Token) (st : PState) : PState :=
  cleanupWhitespacesFuel tokens (tokens.length - st.index) st

/-- Result of a sub-parse: `AstResult` of the old crate (errors are
`(&str, u32, u32)` tuples; the message is kept), plus a fuel marker for the
unbounded `loop`. -/
inductive PCRes where
  | ok (ast : SAst)
  | err (msg : String)
  | fuelOut

/-- A sub-parser (`T::parse`) in state-passing style. -/
abbrev SubParser := List Token → PState → PCRes × PState

/-- The error message of control.rs:126. -/
def rightSideMsg : String := "Right side of expression not found"

/-- The `loop` of `parse_control` (control.rs:109-143).  Each iteration
snapshots `index_backup`, skips whitespace, and tries the operator list:
on a match the left side is temp-return-marked once, whitespace is skipped,
`IN_EXPRESSION` is added to the flags, and the right side is parsed —
`Ok(None)` restores `index_backup` and errors, a sub-parser `Err` is
returned as-is (no restoration), otherwise the `Control` node is built and
the flags restored; on no match the index is restored to `index_backup` and
the accumulated left expression is returned. -/
def parseControlLoop (T : SubParser) (ops : List KOperator) (tokens : List Token)
    (left : SAst) (updated : Bool) (st : PState) : Nat → PCRes × PState
  | 0 => (PCRes.fuelOut, st)
  | fuel+1 =>
    let index_backup := st.index
    let st2 := cleanupWhitespaces tokens st
    match matchOperator tokens ops st2 with
    | (Option.some op, st3) =>
      let left' := if updated then left else update_functions_for_temp_return left
      let st4 := cleanupWhitespaces tokens st3
      let parser_flags := st4.flags
      let st5 : PState := { st4 with flags := parser_flags ||| IN_EXPRESSION }
      match T tokens st5 with
      | (PCRes.ok SAst.none, st6) =>
        (PCRes.err rightSideMsg, { st6 with index := index_backup })
      | (PCRes.ok right, st6) =>
        parseControlLoop T ops tokens (SAst.control left' op right) true
          { st6 with flags := parser_flags } fuel
      | (r, st6) => (r, st6)
    | (Option.none, st3) => (PCRes.ok left, { st3 with index := index_backup })

/-- Rust `parse_control` (control.rs:101-146): parse the left side with the
sub-parser (propagating its errors), return `None` as-is, otherwise run the
operator loop. -/
def parseControl (T : SubParser) (ops : List KOperator) (tokens : List Token)
    (st : PState) (fuel : Nat) : PCRes × PState :=
  match T tokens st with
  | (PCRes.ok left, st1) =>
    if left.isNone then (PCRes.ok left, st1)
    else parseControlLoop T ops tokens left false st1 fuel
  | r => r

/-- Modelled from the spec: the primary production for a bare symbol token
(`src/src/syntax/primative.rs` is not in the source slice): a `Symbol`
token is consumed and yields `Symbol`; anything else yields `None` without
consuming. -/
def symP : SubParser := fun tokens st =>
  match tokens[st.index]? with
  | Option.some t =>
    match t.token_type with
    | BramaTokenType.symbol s => (PCRes.ok (SAst.symbol s), { st with index := st.index + 1 })
    | _ => (PCRes.ok SAst.none, st)
  | Option.none => (PCRes.ok SAst.none, st)

/-- Token stream `a ==` (a symbol followed by a bare `==`). -/
def c3toks : List Token :=
  [⟨0, 0, 1, BramaTokenType.symbol "a"⟩, ⟨0, 2, 4, BramaTokenType.operator KOperator.equal⟩]

/-- C3 counterexample.  Running `parse_control` on `a ==` from index 0: the
left sub-parse consumes the symbol (index 1), the operator is consumed
(index 2), the right sub-parse returns `None`, and `parse_control` errors
with the cursor restored to 1 — the snapshot taken at the top of the loop
iteration, after the left expression — not to its entry position 0. -/
theorem parse_control_error_index_not_entry :
    (parseControl symP [KOperator.equal] c3toks ⟨0, 0⟩ 2).1 = PCRes.err rightSideMsg ∧
    (parseControl symP [KOperator.equal] c3toks ⟨0, 0⟩ 2).2.index = 1 ∧
    (parseControl symP [KOperator.equal] c3toks ⟨0, 0⟩ 2).2.index ≠ 0 := by
  refine ⟨rfl, rfl, ?_⟩
  intro h
  rw [show (parseControl symP [KOperator.equal] c3toks ⟨0, 0⟩ 2).2.index = 1 from rfl] at h
  exact Nat.noConfusion h

/-- C3 as amended.  On the missing-right-side failure path `parse_control`
restores the index to the snapshot taken at the top of the loop iteration —
the position immediately after the already-parsed left expression — not to
its own entry position; the flags keep `IN_EXPRESSION` (they are restored
only on the success path), and a right-side sub-parser `Err` would be
propagated without any restoration. -/
theorem parse_control_right_missing_restores_iteration_start
    (T : SubParser) (ops : List KOperator) (tokens : List Token) (st : PState)
    (fuel : Nat) (ast : SAst) (st1 st3 st6 : PState) (op : KOperator)
    (hleft : T tokens st = (PCRes.ok ast, st1)) (hne : ast.isNone = false)
    (hop : matchOperator tokens ops (cleanupWhitespaces tokens st1) = (Option.some op, st3))
    (hright : T tokens { cleanupWhitespaces tokens st3 with
        flags := (cleanupWhitespaces tokens st3).flags ||| IN_EXPRESSION } =
      (PCRes.ok SAst.none, st6)) :
    parseControl T ops tokens st (fuel + 1) =
      (PCRes.err rightSideMsg, { st6 with index := st1.index }) := by
  rw [parseControl, hleft]
  simp only [hne, Bool.false_eq_true, if_false]
  rw [parseControlLoop]
  simp only [hop, hright]

/-- Concrete instance for the amended C3: on `a ==` the error is returned
with the cursor at 1 (after the left symbol) and `IN_EXPRESSION` left set. -/
theorem parse_control_right_missing_witness :
    parseControl symP [KOperator.equal] c3toks ⟨0, 0⟩ 2 =
      (PCRes.err rightSideMsg, ⟨1, 8⟩) :=
  parse_control_right_missing_restores_iteration_start symP [KOperator.equal] c3toks
    ⟨0, 0⟩ 1 (SAst.symbol "a") ⟨1, 0⟩ ⟨2, 0⟩ ⟨2, 8⟩ KOperator.equal rfl rfl rfl rfl

/-! ## NaN-boxed VmObject (`src/karamellib/src/types.rs:14-27`) -/

def TAG_NULL : Nat := 0
def TAG_FALSE : Nat := 1
def TAG_TRUE : Nat := 2

def QNAN : Nat := 0x7ffc000000000000
def POINTER_FLAG : Nat := 0x8000000000000000
def POINTER_MASK : Nat := 0x0000FFFFFFFFFFFF
def FALSE_FLAG : Nat := QNAN ||| TAG_FALSE
def TRUE_FLAG : Nat := QNAN ||| TAG_TRUE
def EMPTY_FLAG : Nat := QNAN ||| TAG_NULL

/-- The primitive shapes distinguished by the NaN-boxed encoding: a finite
double (kept as its raw 64-bit pattern), the two booleans, `Empty`, and any
heap-allocated primitive (Text/List/Dict/FuncRef/Class) collapsed to its
48-bit handle — the encoding only sees the handle. -/
inductive KPrimative where
  | number (bits : Nat)
  | boolean (b : Bool)
  | empty
  | heap (handle : Nat)
deriving DecidableEq, Repr

/-- A 64-bit pattern is a finite double iff its exponent field (bits 52-62)
is not all ones. -/
def isFiniteDouble (bits : Nat) : Bool := ((bits >>> 52) &&& 0x7ff) != 0x7ff

/-- Modelled from the spec: `VmObject::convert`
(`karamellib/src/compiler/value.rs` is not in the source slice).  Spec §4.4:
a finite number is its raw bits; `Bool(true) → QNAN | 2`,
`Bool(false) → QNAN | 1`, `Empty → QNAN | 0`; a heap primitive is
`QNAN | POINTER_FLAG | (handle & POINTER_MASK)`. -/
def vmEncode : KPrimative → Nat
  | KPrimative.number bits => bits
  | KPrimative.empty => EMPTY_FLAG
  | KPrimative.boolean false => FALSE_FLAG
  | KPrimative.boolean true => TRUE_FLAG
  | KPrimative.heap h => QNAN ||| POINTER_FLAG ||| (h &&& POINTER_MASK)

/-- Modelled from the spec: `VmObject::deref`.  Spec §4.4: "if bits are a
finite double, Number.  Else … if high bit is pointer flag, lookup handle;
otherwise inspect low 2 bits for Bool/Empty."  The unreachable low-bits
pattern `3` decodes to `none`. -/
def vmDecode (bits : Nat) : Option KPrimative :=
  if isFiniteDouble bits then Option.some (KPrimative.number bits)
  else if (bits &&& POINTER_FLAG) != 0 then
    Option.some (KPrimative.heap (bits &&& POINTER_MASK))
  else
    match bits &&& 3 with
    | 0 => Option.some KPrimative.empty
    | 1 => Option.some (KPrimative.boolean false)
    | 2 => Option.some (KPrimative.boolean true)
    | _ => Option.none

/-- The encodable values: finite doubles and handles that fit in the 48-bit
payload. -/
def vmValid : KPrimative → Prop
  | KPrimative.number bits => isFiniteDouble bits = true
  | KPrimative.heap h => h < 2^48
  | _ => True

theorem qnanPF_testBit (i : Nat) :
    (QNAN ||| POINTER_FLAG).testBit i =
      (decide (i ≥ 48) && (0xfffc : Nat).testBit (i - 48)) := by
  have hc : QNAN ||| POINTER_FLAG = (0xfffc : Nat) <<< 48 := by decide
  rw [hc, Nat.testBit_shiftLeft]

theorem heap_high_bits {h : Nat} (hv : h < 2^48) {i : Nat} (hi : 48 ≤ i) :
    h.testBit i = false :=
  Nat.testBit_lt_two_pow (lt_of_lt_of_le hv (Nat.pow_le_pow_right (by norm_num) hi))

theorem heap_encode_mask {h : Nat} (hv : h < 2^48) :
    (QNAN ||| POINTER_FLAG ||| (h &&& POINTER_MASK)) &&& POINTER_MASK = h := by
  have hm : POINTER_MASK = 2^48 - 1 := by decide
  rw [hm, Nat.and_pow_two_sub_one_of_lt_two_pow hv]
  apply Nat.eq_of_testBit_eq
  intro i
  rw [Nat.testBit_and, Nat.testBit_or, qnanPF_testBit, Nat.testBit_two_pow_sub_one]
  by_cases hi : i < 48
  · simp [hi, Nat.not_le_of_lt hi]
  · have hb : h.testBit i = false := heap_high_bits hv (by omega)
    simp [hi, hb]

theorem heap_encode_not_finite {h : Nat} (hv : h < 2^48) :
    isFiniteDouble (QNAN ||| POINTER_FLAG ||| (h &&& POINTER_MASK)) = false := by
  have hm : POINTER_MASK = 2^48 - 1 := by decide
  rw [hm, Nat.and_pow_two_sub_one_of_lt_two_pow hv]
  rw [isFiniteDouble, bne_eq_false_iff_eq]
  apply Nat.eq_of_testBit_eq
  intro i
  rw [Nat.testBit_and, Nat.testBit_shiftRight, Nat.testBit_or, qnanPF_testBit]
  rw [show (0x7ff : Nat) = 2^11 - 1 by decide, Nat.testBit_two_pow_sub_one]
  by_cases hi : i < 11
  · rw [heap_high_bits hv (by omega)]
    have h4 : (0xfffc : Nat).testBit (52 + i - 48) = true := by
      interval_cases i <;> decide
    simp [hi, h4, show 48 ≤ 52 + i by omega]
  · simp [hi]

theorem heap_encode_pointer_bit {h : Nat} :
    ((QNAN ||| POINTER_FLAG ||| (h &&& POINTER_MASK)) &&& POINTER_FLAG) ≠ 0 := by
  intro h0
  have hb : ((QNAN ||| POINTER_FLAG ||| (h &&& POINTER_MASK)) &&& POINTER_FLAG).testBit 63 =
      true := by
    rw [Nat.testBit_and, Nat.testBit_or, qnanPF_testBit]
    have h63 : POINTER_FLAG.testBit 63 = true := by decide
    simp [h63]
    exact Or.inl (by decide)
  rw [h0, Nat.zero_testBit] at hb
  exact Bool.noConfusion hb

/-- C8.  `decode (encode v) = v` for every encodable primitive shape: a
finite double round-trips through its raw bits, `Empty`/`False`/`True`
round-trip through `QNAN | 0/1/2`, and a heap handle that fits in 48 bits
round-trips exactly through `QNAN | POINTER_FLAG | handle`; moreover the
three tag encodings are pairwise distinct and none of them is the bit
pattern of a finite double. -/
theorem vmobject_roundtrip :
    (∀ v : KPrimative, vmValid v → vmDecode (vmEncode v) = Option.some v) ∧
    (EMPTY_FLAG ≠ FALSE_FLAG ∧ EMPTY_FLAG ≠ TRUE_FLAG ∧ FALSE_FLAG ≠ TRUE_FLAG) ∧
    (isFiniteDouble EMPTY_FLAG = false ∧ isFiniteDouble FALSE_FLAG = false ∧
      isFiniteDouble TRUE_FLAG = false) := by
  refine ⟨?_, by decide, by decide⟩
  intro v hv
  cases v with
  | number bits =>
    have hfin : isFiniteDouble bits = true := hv
    rw [vmEncode, vmDecode, if_pos hfin]
  | boolean b => cases b <;> decide
  | empty => decide
  | heap h =>
    have hv48 : h < 2^48 := hv
    rw [vmEncode, vmDecode,
      if_neg (by rw [heap_encode_not_finite hv48]; exact Bool.noConfusion),
      if_pos (by simp [bne_iff_ne, heap_encode_pointer_bit]),
      heap_encode_mask hv48]

/-- Concrete instances for C8: a heap handle and the finite double `2.0`
(bit pattern `0x4000000000000000`) round-trip. -/
theorem vmobject_roundtrip_witness :
    vmDecode (vmEncode (KPrimative.heap 7)) = Option.some (KPrimative.heap 7) ∧
    vmDecode (vmEncode (KPrimative.number 0x4000000000000000)) =
      Option.some (KPrimative.number 0x4000000000000000) :=
  ⟨vmobject_roundtrip.1 (KPrimative.heap 7) (by show (7 : Nat) < 2^48; decide),
   vmobject_roundtrip.1 (KPrimative.number 0x4000000000000000)
     (by show isFiniteDouble 0x4000000000000000 = true; decide)⟩

/-! ## Function resolution (`src/karamellib/src/compiler/context.rs:89-116`) -/

/-- Rust `FunctionType` (`compiler/function.rs`, not in the source slice): the
native function pointer is abstracted to an id. -/
inductive FunctionType where
  | native (id : Nat)
  | opcode
deriving DecidableEq, Repr

/-- Rust `FunctionReference` fields used by `get_function`. -/
structure FunctionReference where
  name : String
  module_path : List String
  callback : FunctionType
  defined_storage_index : Nat
deriving DecidableEq, Repr

/-- Is the reference a native function? -/
def FunctionReference.isNative (f : FunctionReference) : Bool :=
  match f.callback with
  | FunctionType.native _ => true
  | FunctionType.opcode => false

/-- The predicate of the `position` search inside `get_function`
(context.rs:94-104): a native reference matches on module path and name
alone; an opcode reference additionally matches on
`defined_storage_index == search_storage`. -/
def funcMatches (name : String) (module_path : List String) (search_storage : Nat)
    (f : FunctionReference) : Bool :=
  match f.callback with
  | FunctionType.native _ => f.module_path == module_path && f.name == name
  | FunctionType.opcode =>
    f.name == name && f.module_path == module_path &&
      f.defined_storage_index == search_storage

/-- Result of `get_function`; `badIndex` models the panic of
`self.storages[search_storage]` on an out-of-range storage, `outOfFuel`
marks an unfinished walk (a parent cycle). -/
inductive GetFunctionResult where
  | found (f : FunctionReference)
  | notFound
  | outOfFuel
  | badIndex
deriving DecidableEq, Repr

/-- Rust `KaramelCompilerContext::get_function` (context.rs:89-116).  The storage
table is reduced to its parent links (`get_parent_location`, per the spec's
`parent: option<storage_index>` field): at each storage of the walk the flat
function table is searched with `funcMatches`; on a miss the walk follows
the parent link, and a storage without parent ends the walk with `None`.
The unbounded `loop` is run on fuel. -/
def getFunction (functions : List FunctionReference) (parents : List (Option Nat))
    (name : String) (module_path : List String) : Nat → Nat → GetFunctionResult
  | 0, _ => GetFunctionResult.outOfFuel
  | fuel+1, search_storage =>
    match functions.find? (funcMatches name module_path search_storage) with
    | Option.some f => GetFunctionResult.found f
    | Option.none =>
      match parents[search_storage]? with
      | Option.some (Option.some p) => getFunction functions parents name module_path fuel p
      | Option.some Option.none => GetFunctionResult.notFound
      | Option.none => GetFunctionResult.badIndex

/-- The storages visited by a walk of the parent chain (with the same fuel
as `getFunction`). -/
def storageChain (parents : List (Option Nat)) : Nat → Nat → List Nat
  | 0, _ => []
  | fuel+1, s =>
    s :: (match parents[s]? with
          | Option.some (Option.some p) => storageChain parents fuel p
          | _ => [])

/-- Does the parent chain reach a parentless storage within the fuel (and
without leaving the storage table)? -/
def chainEnds (parents : List (Option Nat)) : Nat → Nat → Bool
  | 0, _ => false
  | fuel+1, s =>
    match parents[s]? with
    | Option.some (Option.some p) => chainEnds parents fuel p
    | Option.some Option.none => true
    | Option.none => false

/-- First function of the table matching at some storage of the chain, in
chain order and table order. -/
def firstMatchInChain (functions : List FunctionReference) (name : String)
    (module_path : List String) : List Nat → Option FunctionReference
  | [] => Option.none
  | t :: ts =>
    match functions.find? (funcMatches name module_path t) with
    | Option.some f => Option.some f
    | Option.none => firstMatchInChain functions name module_path ts

/-- C9 counterexample.  With a function table holding an opcode `f` defined
at storage 0 before a native `f`, `get_function("f", [], 0)` returns the
opcode reference even though a native reference with matching module path
and name exists: the result is the first table entry matching at the
current storage, not "a native reference exactly when one exists". -/
theorem get_function_returns_opcode_over_native :
    (([⟨"f", [], FunctionType.opcode, 0⟩, ⟨"f", [], FunctionType.native 0, 0⟩] :
        List FunctionReference).any
      (fun g => g.isNative && g.module_path == ([] : List String) && g.name == "f")) = true ∧
    getFunction [⟨"f", [], FunctionType.opcode, 0⟩, ⟨"f", [], FunctionType.native 0, 0⟩]
        [Option.none] "f" [] 2 0 =
      GetFunctionResult.found ⟨"f", [], FunctionType.opcode, 0⟩ ∧
    (⟨"f", [], FunctionType.opcode, 0⟩ : FunctionReference).isNative = false := by
  refine ⟨by decide, by decide, rfl⟩

/-- C9 as amended.  `get_function` walks the parent chain from the start
storage and returns the first table entry that matches at the storage
reached — a native entry on module path and name, an opcode entry
additionally on its defining storage; it returns `None` exactly when the
walk ends at a parentless storage with no match at any visited storage.
(A native match therefore guarantees some result, but the returned
reference may be an earlier-listed opcode match.) -/
theorem get_function_first_match_on_chain (functions : List FunctionReference)
    (parents : List (Option Nat)) (name : String) (module_path : List String) :
    ∀ (fuel s : Nat),
      (∀ f, getFunction functions parents name module_path fuel s =
          GetFunctionResult.found f ↔
        firstMatchInChain functions name module_path (storageChain parents fuel s) =
          Option.some f) ∧
      (getFunction functions parents name module_path fuel s =
          GetFunctionResult.notFound ↔
        (chainEnds parents fuel s = true ∧
          firstMatchInChain functions name module_path (storageChain parents fuel s) =
            Option.none)) := by
  intro fuel
  induction fuel with
  | zero =>
    intro s
    constructor
    · intro f
      simp only [getFunction, storageChain, firstMatchInChain]
      exact iff_of_false (fun h => GetFunctionResult.noConfusion h)
        (fun h => Option.noConfusion h)
    · simp only [getFunction, storageChain, chainEnds, firstMatchInChain]
      exact iff_of_false (fun h => GetFunctionResult.noConfusion h)
        (fun h => Bool.noConfusion h.1)
  | succ fuel ih =>
    intro s
    cases hfind : functions.find? (funcMatches name module_path s) with
    | some g =>
      constructor
      · intro f
        simp only [getFunction, storageChain, firstMatchInChain, hfind]
        constructor
        · intro h; injection h with h1; rw [h1]
        · intro h; injection h with h1; rw [h1]
      · simp only [getFunction, storageChain, chainEnds, firstMatchInChain, hfind]
        exact iff_of_false (fun h => GetFunctionResult.noConfusion h)
          (fun h => Option.noConfusion h.2)
    | none =>
      cases hp : parents[s]? with
      | none =>
        constructor
        · intro f
          simp only [getFunction, storageChain, firstMatchInChain, hfind, hp]
          exact iff_of_false (fun h => GetFunctionResult.noConfusion h)
            (fun h => Option.noConfusion h)
        · simp only [getFunction, storageChain, chainEnds, firstMatchInChain, hfind, hp]
          exact iff_of_false (fun h => GetFunctionResult.noConfusion h)
            (fun h => Bool.noConfusion h.1)
      | some po =>
        cases po with
        | none =>
          constructor
          · intro f
            simp only [getFunction, storageChain, firstMatchInChain, hfind, hp]
            exact iff_of_false (fun h => GetFunctionResult.noConfusion h)
              (fun h => Option.noConfusion h)
          · simp only [getFunction, storageChain, chainEnds, firstMatchInChain, hfind, hp]
            exact iff_of_true trivial ⟨trivial, trivial⟩
        | some p =>
          constructor
          · intro f
            simp only [getFunction, storageChain, firstMatchInChain, hfind, hp]
            exact (ih p).1 f
          · simp only [getFunction, storageChain, chainEnds, firstMatchInChain, hfind, hp]
            exact (ih p).2
